import Mathlib

/-!
Shallow embedding of `customer_management.py` (customer/sale ledger with
JSON import and report generation), together with proofs about its
specified behaviour.

Conventions of the embedding:
* Python `datetime` values are modelled by `Datetime` (year/month/day,
  hour/minute/second; sub-second precision is not used by the program's
  data and is not modelled).
* Python `Decimal` values are modelled by `Dec` (mantissa and decimal
  exponent); the program never reads a price back, it only validates it.
* Python exceptions are modelled by the error kind `Err`; each `raise` /
  failing `assert` / library error site in the source is mapped to one
  kind: failing `isinstance` asserts become `Err.typeMismatch` (except the
  cash/subscription business rule, `Err.invariantViolation`, and the
  `cust_id in self.customers` assert of `Ledger.add_sale`,
  `Err.keyNotFound`), `datetime.fromisoformat` / `Decimal` failures on
  unparseable text become `Err.formatError`, `json.loads` failures become
  `Err.parseError`, enum-construction failures become
  `Err.invalidEnumValue`, the explicit duplicate-id `ValueError` becomes
  `Err.duplicateKey`, dictionary `KeyError`s become `Err.keyNotFound`, and
  a missing file in the filesystem map becomes `Err.fileNotFound`.
* Mutating methods are modelled by state passing: they return the state
  after the call together with the outcome, so partial mutation on
  failure is expressible.
-/

set_option maxRecDepth 4096

/-! ## Datetime (model of `datetime.datetime`) -/

structure Datetime where
  year : Nat
  month : Nat
  day : Nat
  hour : Nat
  minute : Nat
  second : Nat
  deriving DecidableEq

def isLeap (y : Nat) : Bool :=
  y % 4 == 0 && (y % 100 != 0 || y % 400 == 0)

def daysInMonth (y m : Nat) : Nat :=
  if m = 2 then (if isLeap y then 29 else 28)
  else if m = 4 ∨ m = 6 ∨ m = 9 ∨ m = 11 then 30
  else 31

def validYMD (y m d : Nat) : Bool :=
  decide (1 ≤ y) && decide (y ≤ 9999) && decide (1 ≤ m) && decide (m ≤ 12) &&
  decide (1 ≤ d) && decide (d ≤ daysInMonth y m)

def validHMS (h mi s : Nat) : Bool :=
  decide (h ≤ 23) && decide (mi ≤ 59) && decide (s ≤ 59)

def digitVal (c : Char) : Option Nat :=
  if c.isDigit then some (c.toNat - 48) else none

def twoDig (a b : Char) : Option Nat := do
  pure ((← digitVal a) * 10 + (← digitVal b))

def fourDig (a b c d : Char) : Option Nat := do
  pure (((← digitVal a) * 10 + (← digitVal b)) * 100 + ((← digitVal c) * 10 + (← digitVal d)))

def mkDatetime (y mo d h mi s : Nat) : Option Datetime :=
  if validYMD y mo d && validHMS h mi s then some ⟨y, mo, d, h, mi, s⟩ else none

/-- Model of `datetime.fromisoformat`: accepts `YYYY-MM-DD`, optionally
followed by a single separator character and `HH:MM` or `HH:MM:SS`.
(Fractional seconds and timezone offsets are not exercised by this
program's data and are not modelled.) -/
def Datetime.fromisoformat (s : String) : Option Datetime :=
  match s.data with
  | [y1, y2, y3, y4, '-', mo1, mo2, '-', d1, d2] => do
    mkDatetime (← fourDig y1 y2 y3 y4) (← twoDig mo1 mo2) (← twoDig d1 d2) 0 0 0
  | [y1, y2, y3, y4, '-', mo1, mo2, '-', d1, d2, _, h1, h2, ':', mi1, mi2] => do
    mkDatetime (← fourDig y1 y2 y3 y4) (← twoDig mo1 mo2) (← twoDig d1 d2)
      (← twoDig h1 h2) (← twoDig mi1 mi2) 0
  | [y1, y2, y3, y4, '-', mo1, mo2, '-', d1, d2, _, h1, h2, ':', mi1, mi2, ':', s1, s2] => do
    mkDatetime (← fourDig y1 y2 y3 y4) (← twoDig mo1 mo2) (← twoDig d1 d2)
      (← twoDig h1 h2) (← twoDig mi1 mi2) (← twoDig s1 s2)
  | _ => none

/-- Days since 1970-01-01 of a proleptic-Gregorian civil date (the same
day numbering Python's `datetime` subtraction is based on). -/
def daysFromCivil (y m d : Int) : Int :=
  let y2 := if m ≤ 2 then y - 1 else y
  let era := Int.fdiv y2 400
  let yoe := y2 - era * 400
  let mp := Int.emod (m + 9) 12
  let doy := Int.fdiv (153 * mp + 2) 5 + d - 1
  let doe := yoe * 365 + Int.fdiv yoe 4 - Int.fdiv yoe 100 + doy
  era * 146097 + doe - 719468

def Datetime.toSec (t : Datetime) : Int :=
  86400 * daysFromCivil (t.year : Int) (t.month : Int) (t.day : Int) +
    3600 * (t.hour : Int) + 60 * (t.minute : Int) + (t.second : Int)

/-- Model of Python `datetime` comparison: field-lexicographic. -/
def Datetime.leb (a b : Datetime) : Bool :=
  if a.year ≠ b.year then decide (a.year < b.year)
  else if a.month ≠ b.month then decide (a.month < b.month)
  else if a.day ≠ b.day then decide (a.day < b.day)
  else if a.hour ≠ b.hour then decide (a.hour < b.hour)
  else if a.minute ≠ b.minute then decide (a.minute < b.minute)
  else decide (a.second ≤ b.second)

/-- Model of `today.replace(year=y)`: validates the new date the way the
`datetime` constructor does, failing (a `ValueError`) e.g. for Feb 29 in a
non-leap target year. -/
def Datetime.replaceYear (t : Datetime) (y : Nat) : Option Datetime :=
  if validYMD y t.month t.day then some { t with year := y } else none

def pad2 (n : Nat) : String :=
  if n < 10 then "0" ++ toString n else toString n

def pad4 (n : Nat) : String :=
  if n < 10 then "000" ++ toString n
  else if n < 100 then "00" ++ toString n
  else if n < 1000 then "0" ++ toString n
  else toString n

/-- Model of `strftime('%Y-%m-%d')`. -/
def Datetime.fmtYmd (t : Datetime) : String :=
  pad4 t.year ++ "-" ++ pad2 t.month ++ "-" ++ pad2 t.day

def epochStart : Datetime := ⟨1970, 1, 1, 0, 0, 0⟩

/-! ## Decimal (model of `decimal.Decimal`) -/

structure Dec where
  mant : Int
  dexp : Int
  deriving DecidableEq

def spanDigits : List Char → (List Char × List Char)
  | [] => ([], [])
  | c :: cs =>
    if c.isDigit then
      let p := spanDigits cs
      (c :: p.1, p.2)
    else ([], c :: cs)

def digitsToNat (ds : List Char) : Nat :=
  ds.foldl (fun acc c => acc * 10 + (c.toNat - 48)) 0

def isSpaceChar (c : Char) : Bool :=
  c = ' ' || c = '\t' || c = '\n' || c = '\r'

/-- Model of constructing `Decimal` from a string: optional sign, digits
with at most one decimal point (at least one digit overall), optional
exponent part; surrounding whitespace is permitted.  Returns `none` on
anything else (Python raises `InvalidOperation`). -/
def parseDec (s : String) : Option Dec :=
  let cs := (s.data.dropWhile isSpaceChar).reverse.dropWhile isSpaceChar |>.reverse
  let (neg, cs1) :=
    match cs with
    | '-' :: r => (true, r)
    | '+' :: r => (false, r)
    | r => (false, r)
  let (ids, r1) := spanDigits cs1
  let (fds, r2) :=
    match r1 with
    | '.' :: r => spanDigits r
    | r => ([], r)
  if ids.isEmpty && fds.isEmpty then none
  else
    let mant : Int := (digitsToNat (ids ++ fds) : Int)
    let mant := if neg then -mant else mant
    match r2 with
    | [] => some ⟨mant, -(fds.length : Int)⟩
    | e :: r3 =>
      if e = 'e' || e = 'E' then
        let (eneg, r4) :=
          match r3 with
          | '-' :: r => (true, r)
          | '+' :: r => (false, r)
          | r => (false, r)
        let (eds, r5) := spanDigits r4
        if eds.isEmpty || !r5.isEmpty then none
        else
          let ev : Int := (digitsToNat eds : Int)
          let ev := if eneg then -ev else ev
          some ⟨mant, ev - (fds.length : Int)⟩
      else none

/-! ## JSON values and `json.loads` -/

inductive Json where
  | jnull
  | jbool (b : Bool)
  | jint (n : Int)
  | jfloat (mant pow10 : Int)
  | jnan
  | jinf (neg : Bool)
  | jstr (s : String)
  | jarr (elems : List Json)
  | jobj (fields : List (String × Json))

/-- Dictionary lookup on a parsed object; later duplicate keys shadow
earlier ones, as in a Python `dict` built by repeated assignment. -/
def Json.getField : Json → String → Option Json
  | .jobj fs, k => fs.foldl (fun acc p => if p.1 = k then some p.2 else acc) none
  | _, _ => none

/-- Python truthiness of a JSON-decoded value. -/
def Json.truthy : Json → Bool
  | .jnull => false
  | .jbool b => b
  | .jint n => n != 0
  | .jfloat m _ => m != 0
  | .jnan => true
  | .jinf _ => true
  | .jstr s => s ≠ ""
  | .jarr xs => !xs.isEmpty
  | .jobj fs => !fs.isEmpty

def skipWs : List Char → List Char
  | [] => []
  | c :: cs => if isSpaceChar c then skipWs cs else c :: cs

def hexVal (c : Char) : Option Nat :=
  if c.isDigit then some (c.toNat - 48)
  else if 'a' ≤ c && c ≤ 'f' then some (c.toNat - 87)
  else if 'A' ≤ c && c ≤ 'F' then some (c.toNat - 55)
  else none

def escSimple (c : Char) : Option Char :=
  if c = '"' then some '"'
  else if c = '\\' then some '\\'
  else if c = '/' then some '/'
  else if c = 'b' then some (Char.ofNat 8)
  else if c = 'f' then some (Char.ofNat 12)
  else if c = 'n' then some '\n'
  else if c = 'r' then some '\r'
  else if c = 't' then some '\t'
  else none

/-- Body of a JSON string literal (after the opening quote), with the
standard escapes and `\uXXXX` (surrogate pairs combined; lone surrogates,
which Lean's `Char` cannot represent, are rejected — a deviation from
Python, which keeps them, not exercised by this program's data). -/
def parseStrBody : List Char → List Char → Option (String × List Char)
  | _, [] => none
  | acc, '"' :: cs => some (String.mk acc.reverse, cs)
  | acc, '\\' :: 'u' :: a :: b :: c :: d :: cs =>
    (match hexVal a, hexVal b, hexVal c, hexVal d with
    | some ha, some hb, some hc, some hd =>
      let n := ((ha * 16 + hb) * 16 + hc) * 16 + hd
      if 55296 ≤ n ∧ n ≤ 56319 then
        match cs with
        | '\\' :: 'u' :: a2 :: b2 :: c2 :: d2 :: cs2 =>
          (match hexVal a2, hexVal b2, hexVal c2, hexVal d2 with
          | some ha2, some hb2, some hc2, some hd2 =>
            let n2 := ((ha2 * 16 + hb2) * 16 + hc2) * 16 + hd2
            if 56320 ≤ n2 ∧ n2 ≤ 57343 then
              parseStrBody (Char.ofNat (65536 + (n - 55296) * 1024 + (n2 - 56320)) :: acc) cs2
            else none
          | _, _, _, _ => none)
        | _ => none
      else if 56320 ≤ n ∧ n ≤ 57343 then none
      else parseStrBody (Char.ofNat n :: acc) cs
    | _, _, _, _ => none)
  | acc, '\\' :: e :: cs =>
    (match escSimple e with
    | some ch => parseStrBody (ch :: acc) cs
    | none => none)
  | acc, c :: cs => if c.toNat < 32 then none else parseStrBody (c :: acc) cs

/-- JSON number (RFC 8259 grammar, as `json.loads` accepts): integers
decode to `jint`, otherwise `jfloat mant pow10` denotes `mant * 10 ^ pow10`. -/
def parseNum (cs : List Char) : Option (Json × List Char) :=
  let (neg, cs1) :=
    match cs with
    | '-' :: r => (true, r)
    | r => (false, r)
  let (ids, r1) := spanDigits cs1
  if ids.isEmpty then none
  else if 1 < ids.length ∧ ids.head? = some '0' then none
  else
    let (fds, r2, hasFrac) :=
      match r1 with
      | '.' :: r =>
        let p := spanDigits r
        (p.1, p.2, true)
      | r => ([], r, false)
    if hasFrac ∧ fds.isEmpty then none
    else
      let (expOk, hasExp, ev, r5) :=
        match r2 with
        | 'e' :: r3 | 'E' :: r3 =>
          let (eneg, r4) :=
            match r3 with
            | '-' :: r => (true, r)
            | '+' :: r => (false, r)
            | r => (false, r)
          let (eds, r5) := spanDigits r4
          if eds.isEmpty then (false, true, (0 : Int), r5)
          else
            let v : Int := (digitsToNat eds : Int)
            (true, true, if eneg then -v else v, r5)
        | r => (true, false, (0 : Int), r)
      if !expOk then none
      else
        let mant : Int := (digitsToNat (ids ++ fds) : Int)
        let mant := if neg then -mant else mant
        if hasFrac ∨ hasExp then
          some (.jfloat mant (ev - (fds.length : Int)), r5)
        else
          some (.jint mant, r5)

mutual

def parseVal : Nat → List Char → Option (Json × List Char)
  | 0, _ => none
  | f + 1, cs =>
    match skipWs cs with
    | [] => none
    | '\x7b' :: r =>
      (match skipWs r with
      | '\x7d' :: r2 => some (.jobj [], r2)
      | r2 => (parseMembers f r2 []).map (fun p => (.jobj p.1, p.2)))
    | '[' :: r =>
      (match skipWs r with
      | ']' :: r2 => some (.jarr [], r2)
      | r2 => (parseElems f r2 []).map (fun p => (.jarr p.1, p.2)))
    | '"' :: r => (parseStrBody [] r).map (fun p => (.jstr p.1, p.2))
    | 't' :: 'r' :: 'u' :: 'e' :: r => some (.jbool true, r)
    | 'f' :: 'a' :: 'l' :: 's' :: 'e' :: r => some (.jbool false, r)
    | 'n' :: 'u' :: 'l' :: 'l' :: r => some (.jnull, r)
    | 'N' :: 'a' :: 'N' :: r => some (.jnan, r)
    | 'I' :: 'n' :: 'f' :: 'i' :: 'n' :: 'i' :: 't' :: 'y' :: r => some (.jinf false, r)
    | '-' :: 'I' :: 'n' :: 'f' :: 'i' :: 'n' :: 'i' :: 't' :: 'y' :: r => some (.jinf true, r)
    | cs2 => parseNum cs2

def parseMembers : Nat → List Char → List (String × Json) → Option (List (String × Json) × List Char)
  | 0, _, _ => none
  | f + 1, cs, acc =>
    match cs with
    | '"' :: r =>
      (match parseStrBody [] r with
      | none => none
      | some (key, r2) =>
        match skipWs r2 with
        | ':' :: r3 =>
          (match parseVal f r3 with
          | none => none
          | some (v, r4) =>
            match skipWs r4 with
            | ',' :: r5 => parseMembers f (skipWs r5) (acc ++ [(key, v)])
            | '\x7d' :: r5 => some (acc ++ [(key, v)], r5)
            | _ => none)
        | _ => none)
    | _ => none

def parseElems : Nat → List Char → List Json → Option (List Json × List Char)
  | 0, _, _ => none
  | f + 1, cs, acc =>
    match parseVal f cs with
    | none => none
    | some (v, r) =>
      match skipWs r with
      | ',' :: r2 => parseElems f r2 (acc ++ [v])
      | ']' :: r2 => some (acc ++ [v], r2)
      | _ => none

end

/-- Model of `json.loads`: `none` models `json.JSONDecodeError`. -/
def json_loads (s : String) : Option Json :=
  match parseVal (2 * s.length + 8) s.data with
  | none => none
  | some (v, rest) => if skipWs rest = [] then some v else none

/-! ## Enumerations and error kinds -/

/-- `class SaleCode(Enum)` with values X / S / U / R. -/
inductive SaleCode where
  | UNKNOWN
  | STANDALONE
  | UPGRADE
  | SUBSCRIPTION
  deriving DecidableEq

def SaleCode.value : SaleCode → String
  | .UNKNOWN => "X"
  | .STANDALONE => "S"
  | .UPGRADE => "U"
  | .SUBSCRIPTION => "R"

/-- `class CustomerCode(Enum)` with values X / C / A / R. -/
inductive CustomerCode where
  | UNKNOWN
  | CASH
  | ACCOUNT
  | SUBSCRIPTION
  deriving DecidableEq

def CustomerCode.value : CustomerCode → String
  | .UNKNOWN => "X"
  | .CASH => "C"
  | .ACCOUNT => "A"
  | .SUBSCRIPTION => "R"

/-- Enum construction `SaleCode(x)` from a decoded JSON value; `none`
models the `ValueError` raised for an unrecognized value. -/
def SaleCode.ofJson : Json → Option SaleCode
  | .jstr "X" => some .UNKNOWN
  | .jstr "S" => some .STANDALONE
  | .jstr "U" => some .UPGRADE
  | .jstr "R" => some .SUBSCRIPTION
  | _ => none

/-- Enum construction `CustomerCode(x)` from a decoded JSON value. -/
def CustomerCode.ofJson : Json → Option CustomerCode
  | .jstr "X" => some .UNKNOWN
  | .jstr "C" => some .CASH
  | .jstr "A" => some .ACCOUNT
  | .jstr "R" => some .SUBSCRIPTION
  | _ => none

/-- Error kinds of the design (section 7 of the spec), plus
`fileNotFound` for the `open()` call in `Ledger.import_json`. -/
inductive Err where
  | typeMismatch
  | formatError
  | parseError
  | invalidEnumValue
  | duplicateKey
  | keyNotFound
  | invariantViolation
  | fileNotFound
  deriving DecidableEq

/-! ## Sale records

The Python classes `BaseSale` / `ProductSale` / `SubscriptionSale` /
`UpgradeSale` are modelled by one record type carrying the object's class
(`SaleClass`, what `isinstance` inspects) and its fields.  The
`prev_sale` attribute of `UpgradeSale` is write-only in the source (no
operation ever reads it) and is not modelled. -/

inductive SaleClass where
  | base
  | product
  | subscription
  | upgrade
  deriving DecidableEq

structure Sale where
  cls : SaleClass
  sale_type : SaleCode
  item : String
  date : Datetime
  price : Dec
  quantity : Int
  expiration : Option Datetime
  deriving DecidableEq

/-- A date argument as the dynamically-typed Python code receives it:
an already-constructed `datetime`, a string, or a value of any other
type. -/
inductive DateInput where
  | dt (d : Datetime)
  | text (s : String)
  | other
  deriving DecidableEq

/-- The conversion idiom shared by `BaseSale.__init__`,
`SubscriptionSale.__init__` and `Ledger.add_customer`:
`if isinstance(x, str): x = datetime.fromisoformat(x)
else: assert isinstance(x, datetime)`. -/
def to_datetime : DateInput → Except Err Datetime
  | .dt d => .ok d
  | .text s =>
    match Datetime.fromisoformat s with
    | some d => .ok d
    | none => .error .formatError
  | .other => .error .typeMismatch

/-- `BaseSale.__str__` together with the `SubscriptionSale.__str__`
override (dispatch on the object's class): `"<item> [<code>]"`, prefixed
by `"<quantity>x "` when quantity > 1, and for subscription sales with a
(truthy) expiration, suffixed by `" (exp: %Y-%m-%d)"`. -/
def Sale.str (s : Sale) : String :=
  let summary := s.item ++ " [" ++ s.sale_type.value ++ "]"
  let summary := if s.quantity > 1 then toString s.quantity ++ "x " ++ summary else summary
  if s.cls = .subscription then
    match s.expiration with
    | some e => summary ++ " (exp: " ++ e.fmtYmd ++ ")"
    | none => summary
  else summary

/-! ## Customer records -/

inductive CustClass where
  | base
  | cash
  | account
  | subscription
  deriving DecidableEq

/-- `cust_type` is initialized by `BaseCustomer.__init__` to
`SaleCode.UPGRADE` — a member of the *sale* enumeration — and then
overwritten by each concrete subclass with a `CustomerCode` member; the
field's value space is therefore the sum of the two enumerations. -/
structure Customer where
  cls : CustClass
  cust_type : Sum SaleCode CustomerCode
  name : String
  acquisition_date : Datetime
  sales : List Sale
  deriving DecidableEq

/-- `BaseCustomer.__init__` (the `assert isinstance(acquisition_date,
datetime)` is discharged by the argument type; `Ledger.add_customer`
performs the string-to-datetime conversion before construction). -/
def BaseCustomer.init (name : String) (acquisition_date : Datetime) : Customer :=
  { cls := .base
    cust_type := .inl SaleCode.UPGRADE
    name := name
    acquisition_date := acquisition_date
    sales := [] }

def CashCustomer.init (name : String) (acquisition_date : Datetime) : Customer :=
  { BaseCustomer.init name acquisition_date with
      cls := .cash, cust_type := .inr CustomerCode.CASH }

def AccountCustomer.init (name : String) (acquisition_date : Datetime) : Customer :=
  { BaseCustomer.init name acquisition_date with
      cls := .account, cust_type := .inr CustomerCode.ACCOUNT }

def SubscriptionCustomer.init (name : String) (acquisition_date : Datetime) : Customer :=
  { BaseCustomer.init name acquisition_date with
      cls := .subscription, cust_type := .inr CustomerCode.SUBSCRIPTION }

/-- `BaseCustomer.add_sale`: the `assert isinstance(sale, BaseSale)` is
discharged by the argument type; the cash/subscription business-rule
assert becomes `Err.invariantViolation`.  Returns the customer state
after the call together with the error, if any. -/
def Customer.add_sale (c : Customer) (sale : Sale) : Customer × Option Err :=
  if c.cls = .cash ∧ sale.cls = .subscription then (c, some .invariantViolation)
  else ({ c with sales := c.sales ++ [sale] }, none)

/-- `BaseCustomer.age`: `(datetime.now() - self.acquisition_date).days`;
`timedelta.days` is the floor of the difference in whole days.  The
current time is passed explicitly. -/
def Customer.age (c : Customer) (now : Datetime) : Int :=
  Int.fdiv (now.toSec - c.acquisition_date.toSec) 86400

/-- `BaseCustomer.find_sales`: defaults are `datetime.fromtimestamp(0)`
and `datetime.now()`; the loop appends, in original order, each sale
whose date lies within the inclusive range. -/
def Customer.find_sales (c : Customer) (now : Datetime)
    (datetime_min datetime_max : Option Datetime) : List Sale :=
  let dmin := datetime_min.getD epochStart
  let dmax := datetime_max.getD now
  c.sales.foldl
    (fun result sale =>
      if Datetime.leb dmin sale.date && Datetime.leb sale.date dmax then result ++ [sale]
      else result)
    []

/-- Rounding of `a / b` (`b > 0`) to the nearest integer, ties to even —
how Python's `format(x, '.1f')` rounds.  For `age/365` with integer age
the rational value is never a tie and is far (relative distance at least
`1/7300`) from every tie, so exact rational rounding agrees with the
rounding of the nearest binary float. -/
def roundHalfEven (a b : Int) : Int :=
  let q := Int.fdiv a b
  let r := a - q * b
  if 2 * r < b then q
  else if b < 2 * r then q + 1
  else if Int.emod q 2 = 0 then q else q + 1

def fmtTenths (n : Nat) : String :=
  toString (n / 10) ++ "." ++ toString (n % 10)

/-- `f"{age / 365:.1f}"` for an integer number of days `age`. -/
def fmtAgeOver365 (age : Int) : String :=
  let d := roundHalfEven (10 * (age.natAbs : Int)) 365
  (if age < 0 then "-" else "") ++ fmtTenths d.toNat

/-- The value attribute read by `summary_line` from the `cust_type`
field, which may hold a member of either enumeration. -/
def ctValue : Sum SaleCode CustomerCode → String
  | .inl sc => sc.value
  | .inr cc => cc.value

/-- `BaseCustomer.summary_line`.  `today.replace(year=today.year - 1)`
raises `ValueError` when the shifted date is invalid (Feb 29 into a
non-leap year), modelled as `Err.formatError`. -/
def Customer.summary_line (c : Customer) (now : Datetime) : Except Err String :=
  let age_approx := fmtAgeOver365 (c.age now)
  match now.replaceYear (now.year - 1) with
  | none => .error .formatError
  | some last_year =>
    let sale_summaries := (c.find_sales now (some last_year) none).map Sale.str
    let result := c.name ++ " [" ++ ctValue c.cust_type ++ "], " ++
      "Duration: " ++ age_approx ++ " years, " ++ "Purchases in the last year:\n"
    .ok (if sale_summaries.isEmpty then result ++ "(none)"
         else result ++ "    " ++ String.intercalate "\n    " sale_summaries)

/-! ## Ledger -/

/-- The `customers` dict: association list in insertion order with
unique keys (every reachable state has unique keys because insertion is
guarded by the duplicate check). -/
abbrev Ledger := List (String × Customer)

/-- First-match association lookup (keys are unique in reachable
states, so this is dict lookup). -/
def alookup {α : Type} : List (String × α) → String → Option α
  | [], _ => none
  | p :: r, k => if p.1 = k then some p.2 else alookup r k

/-- `CUSTOMER_MAP`: `CustomerCode.UNKNOWN` is absent from the dict, so
indexing with it raises `KeyError`. -/
def CUSTOMER_MAP : CustomerCode → Option (String → Datetime → Customer)
  | .SUBSCRIPTION => some SubscriptionCustomer.init
  | .ACCOUNT => some AccountCustomer.init
  | .CASH => some CashCustomer.init
  | .UNKNOWN => none

/-- `if not cust_id: cust_id = name` — `None` and the empty string are
both falsy. -/
def effectiveId (cust_id : Option String) (name : String) : String :=
  match cust_id with
  | none => name
  | some s => if s = "" then name else s

/-- `Ledger.add_customer` (the source spells the parameter
`acquistion_date`).  The `assert isinstance(cust_code, CustomerCode)` is
discharged by the argument type.  Returns the ledger state after the
call and the returned id or the error; the method's only mutation is the
final dict insertion, so on every error path the state is unchanged. -/
def Ledger.add_customer (l : Ledger) (name : String) (acquistion_date : DateInput)
    (cust_code : CustomerCode) (cust_id : Option String) : Ledger × Except Err String :=
  match to_datetime acquistion_date with
  | .error e => (l, .error e)
  | .ok ad =>
    if (alookup l (effectiveId cust_id name)).isSome then (l, .error .duplicateKey)
    else
      match CUSTOMER_MAP cust_code with
      | none => (l, .error .keyNotFound)
      | some gen =>
        (l ++ [(effectiveId cust_id name, gen name ad)], .ok (effectiveId cust_id name))

/-- `Ledger.add_sale`: the `assert cust_id in self.customers` becomes
`Err.keyNotFound`; otherwise delegates to `Customer.add_sale`, updating
the customer in place. -/
def Ledger.add_sale (l : Ledger) (cust_id : String) (sale : Sale) : Ledger × Option Err :=
  match alookup l cust_id with
  | none => (l, some .keyNotFound)
  | some c =>
    match Customer.add_sale c sale with
    | (_, some e) => (l, some e)
    | (c2, none) => (l.map (fun p => if p.1 = cust_id then (p.1, c2) else p), none)

/-- `Ledger.customer_list`: the customer records in insertion order. -/
def Ledger.customer_list (l : Ledger) : List Customer :=
  l.map (fun p => p.2)

/-- The report loop: `for customer in self.customer_list(): result +=
f"{customer.summary_line()}\n"`. -/
def reportBody (now : Datetime) : List Customer → Except Err String
  | [] => .ok ""
  | c :: cs =>
    match c.summary_line now with
    | .error e => .error e
    | .ok s =>
      match reportBody now cs with
      | .error e => .error e
      | .ok rest => .ok (s ++ "\n" ++ rest)

/-- `Ledger.generate_report`. -/
def Ledger.generate_report (l : Ledger) (now : Datetime) : Except Err String :=
  if l.isEmpty then .ok ("Customers:\n" ++ "(none)")
  else
    match reportBody now (Ledger.customer_list l) with
    | .error e => .error e
    | .ok body => .ok ("Customers:\n" ++ body)

/-! ## Import procedure -/

/-- The de-duplication loop `while cust_id in self.customers: cust_id +=
".alt"`.  The fuel `l.length + 1` covers `l.length + 1` distinct
candidates against at most `l.length` occupied keys, so the loop always
terminates within the fuel (proved below). -/
def altId : Nat → Ledger → String → String
  | 0, _, cid => cid
  | f + 1, l, cid => if (alookup l cid).isSome then altId f l (cid ++ ".alt") else cid

def derivedId (l : Ledger) (name : String) : String :=
  altId (l.length + 1) l name

/-- Dictionary indexing `r[k]` on a decoded JSON value: `KeyError` for a
missing key, `TypeError` for indexing a non-object with a string. -/
def getKey (r : Json) (k : String) : Except Err Json :=
  match r with
  | .jobj _ =>
    match r.getField k with
    | some v => .ok v
    | none => .error .keyNotFound
  | _ => .error .typeMismatch

/-- A date field of a decoded record as a `DateInput`: decoded strings
are `str`s; every other decoded value is neither `str` nor `datetime`. -/
def jsonDateInput : Json → DateInput
  | .jstr s => .text s
  | _ => .other

/-- `Decimal(entry['price'])`: parses strings (`InvalidOperation` →
`Err.formatError`), accepts ints and bools exactly and floats as their
decimal source form (the exact binary value is never observed), rejects
other types (`TypeError`). -/
def jsonToDec : Json → Except Err Dec
  | .jstr s =>
    match parseDec s with
    | some d => .ok d
    | none => .error .formatError
  | .jint n => .ok ⟨n, 0⟩
  | .jbool b => .ok ⟨if b then 1 else 0, 0⟩
  | .jfloat m e => .ok ⟨m, e⟩
  | _ => .error .typeMismatch

/-- `entry.get('quantity', 1)` as stored into `self.quantity`.  The
source stores the value untyped; only integral quantities are modelled
(the program's data has only integers there). -/
def jsonQty : Json → Except Err Int
  | .jint n => .ok n
  | .jbool b => .ok (if b then 1 else 0)
  | _ => .error .typeMismatch

/-- `entry['item']` as stored into `self.item`.  The source stores the
value untyped and renders it with `str()`; only string items are
modelled (the program's data has only strings there). -/
def jsonItemText : Json → Except Err String
  | .jstr s => .ok s
  | _ => .error .typeMismatch

/-- `SALE_MAP`: `SaleCode.UNKNOWN` is absent, so indexing with it raises
`KeyError`. -/
def SALE_MAP : SaleCode → Option SaleClass
  | .STANDALONE => some .product
  | .SUBSCRIPTION => some .subscription
  | .UPGRADE => some .upgrade
  | .UNKNOWN => none

/-- The constructor call `sale_gen(item, date, price, quantity,
**kwargs)`.  Passing `expiration=` to `ProductSale` or `UpgradeSale`
raises `TypeError` at the call, before any argument conversion in the
body; `SubscriptionSale` converts the date first (in
`BaseSale.__init__`) and then the expiration, skipping falsy values. -/
def saleCtor (cls : SaleClass) (item : Json) (date : Json) (price : Dec)
    (quantity : Int) (expiration : Option Json) : Except Err Sale :=
  match cls, expiration with
  | .product, some _ => .error .typeMismatch
  | .upgrade, some _ => .error .typeMismatch
  | .base, some _ => .error .typeMismatch
  | cls, expiration => do
    let it ← jsonItemText item
    let d ← to_datetime (jsonDateInput date)
    match cls with
    | .product => .ok ⟨.product, .STANDALONE, it, d, price, quantity, none⟩
    | .upgrade => .ok ⟨.upgrade, .UPGRADE, it, d, price, quantity, none⟩
    | .base => .ok ⟨.base, .UNKNOWN, it, d, price, quantity, none⟩
    | .subscription =>
      match expiration with
      | some ej =>
        if ej.truthy then do
          let ed ← to_datetime (jsonDateInput ej)
          .ok ⟨.subscription, .SUBSCRIPTION, it, d, price, quantity, some ed⟩
        else .ok ⟨.subscription, .SUBSCRIPTION, it, d, price, quantity, none⟩
      | none => .ok ⟨.subscription, .SUBSCRIPTION, it, d, price, quantity, none⟩

/-- Processing of one element of a record's `sales` list, in source
order: price, sale-type code, `SALE_MAP` lookup, quantity, the
`'expiration' in entry` check, then the constructor call (which reads
`entry['item']` and `entry['date']`). -/
def impEntry (entry : Json) : Except Err Sale := do
  let priceJ ← getKey entry "price"
  let price ← jsonToDec priceJ
  let stJ ← getKey entry "sale_type"
  let sc ← match SaleCode.ofJson stJ with
    | some sc => Except.ok sc
    | none => Except.error Err.invalidEnumValue
  let gen ← match SALE_MAP sc with
    | some g => Except.ok g
    | none => Except.error Err.keyNotFound
  let quantity ← match Json.getField entry "quantity" with
    | some q => jsonQty q
    | none => Except.ok 1
  let kw := Json.getField entry "expiration"
  let item ← getKey entry "item"
  let dateJ ← getKey entry "date"
  saleCtor gen item dateJ price quantity kw

/-- The `for entry in record.get('sales', [])` loop: each constructed
sale is added through `Ledger.add_sale`; the first failure aborts,
keeping the ledger state reached so far. -/
def impSales : Ledger → String → List Json → Ledger × Option Err
  | l, _, [] => (l, none)
  | l, cid, e :: es =>
    match impEntry e with
    | .error err => (l, some err)
    | .ok sale =>
      match Ledger.add_sale l cid sale with
      | (l2, some err) => (l2, some err)
      | (l2, none) => impSales l2 cid es

/-- Python iteration over the value of a `sales` field: lists yield
their elements, strings their characters, dicts their keys; other
scalars are not iterable (`TypeError`). -/
def salesEntries : Json → Except Err (List Json)
  | .jarr xs => .ok xs
  | .jstr s => .ok (s.data.map (fun c => Json.jstr (String.mk [c])))
  | .jobj fs => .ok (fs.map (fun p => Json.jstr p.1))
  | _ => .error .typeMismatch

/-- The per-record header processing of `Ledger.import_json`: read
`name` and `cust_type`, derive a collision-free id with the `.alt` loop,
then `add_customer` with `record['aquisition_date']` (sic). -/
def impCustPart (l : Ledger) (record : Json) : Except Err (Ledger × String) := do
  let nameJ ← getKey record "name"
  let ctJ ← getKey record "cust_type"
  let cust_code ← match CustomerCode.ofJson ctJ with
    | some c => Except.ok c
    | none => Except.error Err.invalidEnumValue
  let name ← match nameJ with
    | .jstr s => Except.ok s
    | _ => Except.error Err.typeMismatch
  let cid := derivedId l name
  let adJ ← getKey record "aquisition_date"
  match Ledger.add_customer l name (jsonDateInput adJ) cust_code (some cid) with
  | (_, .error e) => .error e
  | (l2, .ok i) => .ok (l2, i)

/-- `record.get('sales', [])` followed by iteration: the entries the
sale loop will walk, or the error iterating raises. -/
def salesList (record : Json) : Except Err (List Json) :=
  match record.getField "sales" with
  | some sj => salesEntries sj
  | none => Except.ok []

/-- One record of the import payload: add the customer, then its sales.
A failure after the customer was added keeps the customer (and any sales
added before the failure). -/
def impRecord (l : Ledger) (record : Json) : Ledger × Option Err :=
  match impCustPart l record with
  | .error e => (l, some e)
  | .ok (l2, cid) =>
    match salesList record with
    | .error e => (l2, some e)
    | .ok entries => impSales l2 cid entries

def impRecords : Ledger → List Json → Ledger × Option Err
  | l, [] => (l, none)
  | l, r :: rs =>
    match impRecord l r with
    | (l2, some e) => (l2, some e)
    | (l2, none) => impRecords l2 rs

/-- `Ledger.import_json(filename)`: the method receives a *filename*,
reads it from the filesystem (`open(filename).read()`, modelled by the
explicit filesystem map `fs`), parses the text with `json.loads`,
requires a top-level list, and processes the records in order.  Returns
the ledger state after the call and the error, if any. -/
def Ledger.import_json (fs : List (String × String)) (l : Ledger) (filename : String) :
    Ledger × Option Err :=
  match alookup fs filename with
  | none => (l, some .fileNotFound)
  | some text =>
    match json_loads text with
    | none => (l, some .parseError)
    | some (.jarr records) => impRecords l records
    | some _ => (l, some .typeMismatch)

/-! ## Reachable ledger states and invariants -/

/-- Ledger states reachable through the public operations, starting from
the empty ledger `Ledger()` constructs: `add_customer`, `add_sale` and
`import_json` (taking the post-state whether the call succeeded or
failed). -/
inductive Reachable : Ledger → Prop where
  | nil : Reachable []
  | addCustomer (l : Ledger) (n : String) (di : DateInput) (cc : CustomerCode)
      (cid : Option String) : Reachable l → Reachable (Ledger.add_customer l n di cc cid).1
  | addSale (l : Ledger) (i : String) (s : Sale) :
      Reachable l → Reachable (Ledger.add_sale l i s).1
  | imported (fs : List (String × String)) (l : Ledger) (f : String) :
      Reachable l → Reachable (Ledger.import_json fs l f).1

/-- Every customer of the ledger satisfies `P`. -/
def AllCust (P : Customer → Prop) (l : Ledger) : Prop :=
  ∀ p ∈ l, P p.2

/-- Every customer in the ledger carries a `CustomerCode` in its
`cust_type` field (never the `SaleCode.UPGRADE` initialization value of
`BaseCustomer.__init__`). -/
def GoodTags (l : Ledger) : Prop :=
  AllCust (fun c => ∃ cc : CustomerCode, c.cust_type = Sum.inr cc) l

/-- No cash-class customer owns a subscription-class sale. -/
def NoCashSub (l : Ledger) : Prop :=
  AllCust (fun c => c.cls = CustClass.cash →
    ∀ s ∈ c.sales, s.cls ≠ SaleClass.subscription) l

/-! ## Concrete inputs used by the scenario claims -/

/-- The Scenario A payload (single record for "Acme, Inc" with three
sales), as JSON text. -/
def payloadA : String :=
  "[\x7b\"name\":\"Acme, Inc\",\"aquisition_date\":\"2017-01-02\",\"cust_type\":\"R\",\"sales\":[\x7b\"sale_type\":\"S\",\"item\":\"Anvil\",\"date\":\"2019-04-01\",\"price\":\"29.99\",\"quantity\":8\x7d,\x7b\"sale_type\":\"R\",\"item\":\"Dynamite\",\"date\":\"2019-03-20\",\"price\":\"1.21\",\"quantity\":1,\"expiration\":\"2025-03-20\"\x7d,\x7b\"sale_type\":\"U\",\"item\":\"Longer Fuse\",\"date\":\"2019-03-20\",\"price\":\"0.01\",\"quantity\":1\x7d]\x7d]"

def fsA : List (String × String) := [("cust.json", payloadA)]

/-- The reference "now" of Scenario A: 2020-01-02. -/
def nowA : Datetime := ⟨2020, 1, 2, 0, 0, 0⟩

/-- The Scenario B payload: two records with the same name "X". -/
def payloadB : String :=
  "[\x7b\"name\":\"X\",\"aquisition_date\":\"2018-01-01\",\"cust_type\":\"C\"\x7d,\x7b\"name\":\"X\",\"aquisition_date\":\"2018-01-01\",\"cust_type\":\"C\"\x7d]"

/-- Newline-terminated concatenation: each element followed by a newline. -/
def concatLines : List String → String
  | [] => ""
  | s :: r => s ++ "\n" ++ concatLines r

/-- The k-th candidate id: the record's name with `".alt"` appended k
times. -/
def candN (name : String) : Nat → String
  | 0 => name
  | k + 1 => candN name k ++ ".alt"

/-- A concrete record for the C9 witness: customer "B" with one valid
standalone sale followed by a standalone sale carrying an expiration. -/
def goodC9 : Json :=
  Json.jobj [("sale_type", Json.jstr "S"), ("item", Json.jstr "A"),
    ("date", Json.jstr "2019-01-01"), ("price", Json.jstr "1")]

def badC9 : Json :=
  Json.jobj [("sale_type", Json.jstr "S"), ("item", Json.jstr "C2"),
    ("date", Json.jstr "2019-01-01"), ("price", Json.jstr "1"),
    ("expiration", Json.jstr "2020-01-01")]

def recC9 : Json :=
  Json.jobj [("name", Json.jstr "B"), ("aquisition_date", Json.jstr "2018-01-01"),
    ("cust_type", Json.jstr "C"), ("sales", Json.jarr [goodC9, badC9])]

def saleC9 : Sale :=
  ⟨SaleClass.product, SaleCode.STANDALONE, "A", ⟨2019, 1, 1, 0, 0, 0⟩, ⟨1, 0⟩, 1, none⟩

def ledgerC9 : Ledger :=
  [("B", { CashCustomer.init "B" ⟨2018, 1, 1, 0, 0, 0⟩ with sales := [saleC9] })]

/-! ## Helper lemmas -/

theorem foldl_append_filter (p : Sale → Bool) :
    ∀ (xs acc : List Sale),
      xs.foldl (fun r s => if p s then r ++ [s] else r) acc = acc ++ xs.filter p := by
  intro xs
  induction xs with
  | nil => intro acc; simp
  | cons x xs ih =>
    intro acc
    by_cases h : p x <;> simp [List.filter_cons, h, ih]

theorem reportBody_eq (now : Datetime) :
    ∀ cs : List Customer,
      reportBody now cs =
        (cs.mapM (fun c => Customer.summary_line c now)).map concatLines := by
  intro cs
  induction cs with
  | nil => rfl
  | cons c cs ih =>
    simp only [reportBody, List.mapM_cons, ih]
    cases h : c.summary_line now with
    | error e => rfl
    | ok s =>
      cases hm : cs.mapM (fun c => Customer.summary_line c now) with
      | error e => rfl
      | ok ss => rfl

theorem alookup_mem {α : Type} :
    ∀ (l : List (String × α)) (k : String) (v : α), alookup l k = some v → (k, v) ∈ l := by
  intro l
  induction l with
  | nil => intro k v h; simp [alookup] at h
  | cons p r ih =>
    intro k v h
    cases p with
    | mk a b =>
      simp only [alookup] at h
      by_cases hp : a = k
      · subst hp
        rw [if_pos rfl] at h
        cases h
        exact List.mem_cons_self _ _
      · rw [if_neg hp] at h
        exact List.mem_cons_of_mem _ (ih k v h)

theorem alookup_isSome_iff {α : Type} :
    ∀ (l : List (String × α)) (k : String),
      (alookup l k).isSome = true ↔ k ∈ l.map Prod.fst := by
  intro l
  induction l with
  | nil => intro k; simp [alookup]
  | cons p r ih =>
    intro k
    simp only [alookup, List.map_cons, List.mem_cons]
    split
    · rename_i hp
      simp [hp]
    · rename_i hp
      rw [ih]
      constructor
      · exact fun h => Or.inr h
      · rintro (h | h)
        · exact absurd h.symm hp
        · exact h

theorem alookup_append_self {α : Type} :
    ∀ (l : List (String × α)) (k : String) (v : α),
      alookup l k = none → alookup (l ++ [(k, v)]) k = some v := by
  intro l
  induction l with
  | nil => intro k v _; simp [alookup]
  | cons p r ih =>
    intro k v h
    simp only [alookup] at h ⊢
    split at h
    · exact absurd h (by simp)
    · rename_i hp
      rw [if_neg hp]
      exact ih k v h

theorem alookup_append_isSome {α : Type} :
    ∀ (l : List (String × α)) (k : String) (v : α),
      (alookup (l ++ [(k, v)]) k).isSome = true := by
  intro l
  induction l with
  | nil => intro k v; simp [alookup]
  | cons p r ih =>
    intro k v
    simp only [List.cons_append, alookup]
    split
    · rfl
    · exact ih k v

/-! ## Claims -/

/-- Claim C1: importing the Scenario A single-record payload into a
fresh ledger, with the current time fixed at 2020-01-02, succeeds and
yields a ledger with exactly one customer owning exactly three sales,
and `generate_report` then produces the header followed by exactly the
expected "Acme, Inc" summary line. -/
theorem claim_C1 :
    (Ledger.import_json fsA [] "cust.json").2 = none ∧
    (Ledger.import_json fsA [] "cust.json").1.length = 1 ∧
    (Ledger.import_json fsA [] "cust.json").1.map (fun p => p.2.sales.length) = [3] ∧
    Ledger.generate_report (Ledger.import_json fsA [] "cust.json").1 nowA =
      Except.ok ("Customers:\n" ++
        "Acme, Inc [R], Duration: 3.0 years, Purchases in the last year:\n    8x Anvil [S]\n    Dynamite [R] (exp: 2025-03-20)\n    Longer Fuse [U]\n") :=
  ⟨rfl, rfl, rfl, rfl⟩

/-- Claim C2 counterexample: `import_json` takes a *filename*, not the
payload text.  The argument string `"bad!"` is not well-formed JSON, yet
when the filesystem maps the file `"bad!"` to the well-formed text
`"[]"`, the import succeeds instead of failing with ParseError. -/
theorem claim_C2_counterexample :
    json_loads "bad!" = none ∧
    (Ledger.import_json [("bad!", "[]")] [] "bad!").2 = none :=
  ⟨rfl, rfl⟩

/-- Claim C2 (amended): `import_json` takes a filename and reads that
file from the filesystem; whenever the file's contents are not
well-formed JSON, the import fails with ParseError and the ledger is
exactly what it was before the call. -/
theorem claim_C2 :
    ∀ (fs : List (String × String)) (l : Ledger) (fn s : String),
      alookup fs fn = some s → json_loads s = none →
      Ledger.import_json fs l fn = (l, some Err.parseError) := by
  intro fs l fn s hfs hparse
  simp only [Ledger.import_json, hfs, hparse]

/-- Witness for C2: a fresh ledger and a file holding the non-JSON text
`"\x7b"` (a lone opening brace). -/
theorem claim_C2_witness :
    Ledger.import_json [("f", "\x7b")] [] "f" = ([], some Err.parseError) :=
  claim_C2 [("f", "\x7b")] [] "f" "\x7b" rfl rfl

/-- Claim C5: `generate_report` on an empty ledger returns exactly
`"Customers:\n(none)"`; on a non-empty ledger it returns the header
followed by each customer's summary line, each terminated with a
newline, in ledger insertion order. -/
theorem claim_C5 :
    ∀ (now : Datetime) (l : Ledger),
      (Ledger.generate_report [] now = Except.ok ("Customers:\n" ++ "(none)")) ∧
      (l ≠ [] →
        Ledger.generate_report l now =
          ((Ledger.customer_list l).mapM (fun c => Customer.summary_line c now)).map
            (fun ss => "Customers:\n" ++ concatLines ss)) := by
  intro now l
  refine ⟨rfl, fun hne => ?_⟩
  unfold Ledger.generate_report
  rw [if_neg (by simpa using hne)]
  rw [reportBody_eq]
  cases (Ledger.customer_list l).mapM (fun c => Customer.summary_line c now) with
  | error e => rfl
  | ok ss => rfl

/-- Witness for C5: a one-customer ledger. -/
theorem claim_C5_witness :
    Ledger.generate_report [("a", CashCustomer.init "a" ⟨2019, 1, 1, 0, 0, 0⟩)] nowA =
      (((Ledger.customer_list [("a", CashCustomer.init "a" ⟨2019, 1, 1, 0, 0, 0⟩)]).mapM
          (fun c => Customer.summary_line c nowA)).map
        (fun ss => "Customers:\n" ++ concatLines ss)) :=
  (claim_C5 nowA [("a", CashCustomer.init "a" ⟨2019, 1, 1, 0, 0, 0⟩)]).2 (by decide)

/-- Claim C7 counterexample: constructing a customer (through
`add_customer`, where the date conversion happens) with acquisition date
text that does not parse fails with FormatError — the `ValueError` of
`datetime.fromisoformat` — not with TypeMismatch. -/
theorem claim_C7_counterexample :
    Ledger.add_customer [] "A" (DateInput.text "bogus") CustomerCode.CASH none =
      ([], Except.error Err.formatError) ∧ Err.formatError ≠ Err.typeMismatch :=
  ⟨rfl, by decide⟩

/-- Claim C7 (amended): customer construction accepts the acquisition
date either as an already-typed timestamp or as parseable ISO-8601 text
(converted on construction); it fails with FormatError when the value is
text that does not parse, and with TypeMismatch when it is neither a
timestamp nor text. -/
theorem claim_C7 :
    ∀ (l : Ledger) (name : String) (cc : CustomerCode) (cid : Option String),
      (∀ d : Datetime, to_datetime (DateInput.dt d) = Except.ok d) ∧
      (∀ (s : String) (d : Datetime), Datetime.fromisoformat s = some d →
        to_datetime (DateInput.text s) = Except.ok d) ∧
      (∀ s : String, Datetime.fromisoformat s = none →
        Ledger.add_customer l name (DateInput.text s) cc cid =
          (l, Except.error Err.formatError)) ∧
      Ledger.add_customer l name DateInput.other cc cid =
        (l, Except.error Err.typeMismatch) := by
  intro l name cc cid
  refine ⟨fun d => rfl, fun s d h => ?_, fun s h => ?_, rfl⟩
  · simp [to_datetime, h]
  · unfold Ledger.add_customer
    simp [to_datetime, h]

/-- Witness for C7: `"2017-01-02"` parses; `"zz"` does not. -/
theorem claim_C7_witness :
    to_datetime (DateInput.text "2017-01-02") = Except.ok ⟨2017, 1, 2, 0, 0, 0⟩ ∧
    Ledger.add_customer [] "A" (DateInput.text "zz") CustomerCode.CASH none =
      ([], Except.error Err.formatError) :=
  ⟨(claim_C7 [] "A" CustomerCode.CASH none).2.1 "2017-01-02" ⟨2017, 1, 2, 0, 0, 0⟩ rfl,
   (claim_C7 [] "A" CustomerCode.CASH none).2.2.1 "zz" rfl⟩

/-- Claim C8: `find_sales` returns exactly the owned sales whose date
lies within the inclusive range `[min, max]`, in original sequence
order, with an omitted lower bound defaulting to epoch start and an
omitted upper bound defaulting to the current time. -/
theorem claim_C8 :
    ∀ (c : Customer) (now : Datetime) (dmin dmax : Option Datetime),
      c.find_sales now dmin dmax =
        c.sales.filter (fun s =>
          Datetime.leb (dmin.getD epochStart) s.date &&
            Datetime.leb s.date (dmax.getD now)) ∧
      ∀ s : Sale,
        s ∈ c.find_sales now dmin dmax ↔
          s ∈ c.sales ∧ Datetime.leb (dmin.getD epochStart) s.date = true ∧
            Datetime.leb s.date (dmax.getD now) = true := by
  intro c now dmin dmax
  have h : c.find_sales now dmin dmax =
      c.sales.filter (fun s =>
        Datetime.leb (dmin.getD epochStart) s.date && Datetime.leb s.date (dmax.getD now)) := by
    unfold Customer.find_sales
    rw [foldl_append_filter]
    simp
  refine ⟨h, fun s => ?_⟩
  rw [h, List.mem_filter]
  simp [Bool.and_eq_true, and_assoc]

theorem add_customer_ok (l : Ledger) (n : String) (di : DateInput) (cc : CustomerCode)
    (cid : Option String) (l1 : Ledger) (i : String)
    (h : Ledger.add_customer l n di cc cid = (l1, Except.ok i)) :
    i = effectiveId cid n ∧ (alookup l1 i).isSome = true := by
  cases hd : to_datetime di with
  | error e => simp [Ledger.add_customer, hd] at h
  | ok ad =>
    simp only [Ledger.add_customer, hd] at h
    by_cases hl : (alookup l (effectiveId cid n)).isSome
    · rw [if_pos hl] at h
      simp at h
    · rw [if_neg hl] at h
      cases hm : CUSTOMER_MAP cc with
      | none => rw [hm] at h; simp at h
      | some gen =>
        rw [hm] at h
        obtain ⟨h1, h2⟩ := Prod.mk.injEq _ _ _ _ ▸ h
        injection h2 with h2
        subst h1
        subst h2
        exact ⟨rfl, alookup_append_isSome l _ _⟩

/-- Claim C4: `add_customer` is injective on the customer id (explicit
or defaulted from the name): when the effective id is already present
and the date argument is itself valid, the call fails with DuplicateKey
and the ledger is unchanged; and two calls whose effective ids coincide
never both succeed, since the second fails with some error, leaving the
ledger unchanged. -/
theorem claim_C4 :
    ∀ (l : Ledger) (name : String) (di : DateInput) (cc : CustomerCode) (cid : Option String),
      (∀ d : Datetime, to_datetime di = Except.ok d →
        (alookup l (effectiveId cid name)).isSome = true →
        Ledger.add_customer l name di cc cid = (l, Except.error Err.duplicateKey)) ∧
      (∀ (l1 : Ledger) (i name2 : String) (di2 : DateInput) (cc2 : CustomerCode)
          (cid2 : Option String),
        Ledger.add_customer l name di cc cid = (l1, Except.ok i) →
        effectiveId cid2 name2 = i →
        ∃ e, Ledger.add_customer l1 name2 di2 cc2 cid2 = (l1, Except.error e)) := by
  intro l name di cc cid
  constructor
  · intro d hd hl
    simp only [Ledger.add_customer, hd]
    rw [if_pos hl]
  · intro l1 i name2 di2 cc2 cid2 h heff
    obtain ⟨_, hsome⟩ := add_customer_ok l name di cc cid l1 i h
    cases hd2 : to_datetime di2 with
    | error e => exact ⟨e, by simp only [Ledger.add_customer, hd2]⟩
    | ok ad2 =>
      refine ⟨Err.duplicateKey, ?_⟩
      simp only [Ledger.add_customer, hd2]
      rw [heff, if_pos hsome]

/-- Witness for C4: adding "A" twice — the second call reports
DuplicateKey; and a successful add followed by a same-id add where the
second must fail. -/
theorem claim_C4_witness :
    Ledger.add_customer [("A", CashCustomer.init "A" ⟨2019, 1, 1, 0, 0, 0⟩)] "A"
        (DateInput.dt ⟨2020, 1, 1, 0, 0, 0⟩) CustomerCode.CASH none =
      ([("A", CashCustomer.init "A" ⟨2019, 1, 1, 0, 0, 0⟩)], Except.error Err.duplicateKey) ∧
    ∃ e, Ledger.add_customer [("B", CashCustomer.init "B" ⟨2019, 1, 1, 0, 0, 0⟩)] "B"
        (DateInput.dt ⟨2020, 1, 1, 0, 0, 0⟩) CustomerCode.CASH none =
      ([("B", CashCustomer.init "B" ⟨2019, 1, 1, 0, 0, 0⟩)], Except.error e) :=
  ⟨(claim_C4 [("A", CashCustomer.init "A" ⟨2019, 1, 1, 0, 0, 0⟩)] "A"
      (DateInput.dt ⟨2020, 1, 1, 0, 0, 0⟩) CustomerCode.CASH none).1
      ⟨2020, 1, 1, 0, 0, 0⟩ rfl rfl,
   (claim_C4 [] "B" (DateInput.dt ⟨2019, 1, 1, 0, 0, 0⟩) CustomerCode.CASH none).2
      [("B", CashCustomer.init "B" ⟨2019, 1, 1, 0, 0, 0⟩)] "B" "B"
      (DateInput.dt ⟨2020, 1, 1, 0, 0, 0⟩) CustomerCode.CASH none rfl rfl⟩

/-! ## The `.alt` de-duplication loop -/

theorem candN_len (name : String) : ∀ k, (candN name k).length = name.length + 4 * k := by
  intro k
  induction k with
  | zero => simp [candN]
  | succ k ih =>
    have h4 : (".alt" : String).length = 4 := rfl
    simp only [candN, String.length_append, ih, h4]
    ring

theorem candN_injective (name : String) : Function.Injective (candN name) := by
  intro a b h
  have := congrArg String.length h
  rw [candN_len, candN_len] at this
  omega

theorem candN_shift (name : String) : ∀ k, candN (name ++ ".alt") k = candN name (k + 1) := by
  intro k
  induction k with
  | zero => rfl
  | succ k ih => simp only [candN, ih]

theorem altId_spec :
    ∀ (f : Nat) (l : Ledger) (id : String),
      ∃ k, k ≤ f ∧ altId f l id = candN id k ∧
        ∀ j, j < k → (alookup l (candN id j)).isSome = true := by
  intro f
  induction f with
  | zero =>
    intro l id
    exact ⟨0, Nat.le_refl 0, rfl, fun j hj => absurd hj (Nat.not_lt_zero j)⟩
  | succ f ih =>
    intro l id
    by_cases h : (alookup l id).isSome = true
    · obtain ⟨k, hk, he, hj⟩ := ih l (id ++ ".alt")
      refine ⟨k + 1, Nat.succ_le_succ hk, ?_, ?_⟩
      · rw [show altId (f + 1) l id = altId f l (id ++ ".alt") from by simp [altId, h], he,
          candN_shift]
      · intro j hjk
        cases j with
        | zero => exact h
        | succ j2 =>
          rw [← candN_shift]
          exact hj j2 (Nat.lt_of_succ_lt_succ hjk)
    · exact ⟨0, Nat.zero_le _, by simp [altId, h, candN], fun j hj => absurd hj (Nat.not_lt_zero j)⟩

theorem altId_mem :
    ∀ (f : Nat) (l : Ledger) (id : String),
      (alookup l (altId f l id)).isSome = true →
      ∀ j, j ≤ f → (alookup l (candN id j)).isSome = true := by
  intro f
  induction f with
  | zero =>
    intro l id hs j hj
    cases Nat.le_zero.mp hj
    exact hs
  | succ f ih =>
    intro l id hs j hj
    by_cases h : (alookup l id).isSome = true
    · cases j with
      | zero => exact h
      | succ j2 =>
        rw [← candN_shift]
        refine ih l (id ++ ".alt") ?_ j2 (Nat.le_of_succ_le_succ hj)
        simpa [altId, h] using hs
    · rw [show altId (f + 1) l id = id from by simp [altId, h]] at hs
      exact absurd hs h

/-- The fuel `l.length + 1` always suffices: the id produced by the
de-duplication loop is absent from the ledger (pigeonhole over the
`l.length + 2` distinct candidates). -/
theorem derivedId_not_mem (l : Ledger) (name : String) :
    alookup l (derivedId l name) = none := by
  cases heq : alookup l (derivedId l name) with
  | none => rfl
  | some v =>
    exfalso
    have hs : (alookup l (derivedId l name)).isSome = true := by rw [heq]; rfl
    have hall := altId_mem (l.length + 1) l name hs
    set L := (List.range (l.length + 2)).map (candN name) with hL
    have hnodup : L.Nodup := List.Nodup.map (candN_injective name) (List.nodup_range _)
    have hsub : ∀ x ∈ L, x ∈ l.map Prod.fst := by
      intro x hx
      rw [hL, List.mem_map] at hx
      obtain ⟨j, hj, rfl⟩ := hx
      rw [List.mem_range] at hj
      exact (alookup_isSome_iff l _).mp (hall j (by omega))
    have h1 : L.toFinset.card = L.length := List.toFinset_card_of_nodup hnodup
    have h2 : L.toFinset ⊆ (l.map Prod.fst).toFinset :=
      fun x hx => List.mem_toFinset.mpr (hsub x (List.mem_toFinset.mp hx))
    have h3 : (l.map Prod.fst).toFinset.card ≤ (l.map Prod.fst).length :=
      List.toFinset_card_le _
    have h4 := Finset.card_le_card h2
    have h5 : L.length = l.length + 2 := by rw [hL, List.length_map, List.length_range]
    have h6 : (l.map Prod.fst).length = l.length := List.length_map _ _
    omega

/-- Claim C6: during import the candidate id is derived from the
record's name by appending the literal suffix `".alt"` until it misses
every present id (the produced id is the first free candidate and is
itself absent); and importing two records named "X" into a fresh ledger
yields the ids "X" and "X.alt", both present. -/
theorem claim_C6 :
    (∀ (l : Ledger) (name : String),
      alookup l (derivedId l name) = none ∧
      ∃ k, derivedId l name = candN name k ∧
        ∀ j, j < k → (alookup l (candN name j)).isSome = true) ∧
    (Ledger.import_json [("f", payloadB)] [] "f").1.map Prod.fst = ["X", "X.alt"] ∧
    (Ledger.import_json [("f", payloadB)] [] "f").2 = none := by
  refine ⟨fun l name => ⟨derivedId_not_mem l name, ?_⟩, rfl, rfl⟩
  obtain ⟨k, _, he, hj⟩ := altId_spec (l.length + 1) l name
  exact ⟨k, he, hj⟩

/-- Witness for C6: the derived id for a second "X" against a ledger
already holding "X". -/
theorem claim_C6_witness :
    alookup [("X", CashCustomer.init "X" ⟨2018, 1, 1, 0, 0, 0⟩)]
      (derivedId [("X", CashCustomer.init "X" ⟨2018, 1, 1, 0, 0, 0⟩)] "X") = none :=
  (claim_C6.1 [("X", CashCustomer.init "X" ⟨2018, 1, 1, 0, 0, 0⟩)] "X").1

/-! ## Preservation of per-customer invariants through the operations -/

theorem allCust_addCustomer (P : Customer → Prop)
    (hgen : ∀ (cc : CustomerCode) (gen : String → Datetime → Customer) (n : String)
      (a : Datetime), CUSTOMER_MAP cc = some gen → P (gen n a))
    (l : Ledger) (n : String) (di : DateInput) (cc : CustomerCode) (cid : Option String)
    (h : AllCust P l) : AllCust P (Ledger.add_customer l n di cc cid).1 := by
  cases hd : to_datetime di with
  | error e => simpa only [Ledger.add_customer, hd] using h
  | ok ad =>
    simp only [Ledger.add_customer, hd]
    by_cases hl : (alookup l (effectiveId cid n)).isSome
    · rw [if_pos hl]; exact h
    · rw [if_neg hl]
      cases hm : CUSTOMER_MAP cc with
      | none => exact h
      | some gen =>
        intro p hp
        rcases List.mem_append.mp hp with hp | hp
        · exact h p hp
        · rw [List.mem_singleton.mp hp]
          exact hgen cc gen n ad hm

theorem allCust_addSale (P : Customer → Prop)
    (hstep : ∀ (c : Customer) (s : Sale) (c2 : Customer),
      Customer.add_sale c s = (c2, none) → P c → P c2)
    (l : Ledger) (i : String) (s : Sale)
    (h : AllCust P l) : AllCust P (Ledger.add_sale l i s).1 := by
  cases hc : alookup l i with
  | none => simpa only [Ledger.add_sale, hc] using h
  | some c =>
    cases hadd : Customer.add_sale c s with
    | mk c2 eo =>
      cases eo with
      | some e => simpa only [Ledger.add_sale, hc, hadd] using h
      | none =>
        simp only [Ledger.add_sale, hc, hadd]
        intro p hp
        rcases List.mem_map.mp hp with ⟨q, hq, rfl⟩
        by_cases hqi : q.1 = i
        · rw [if_pos hqi]
          exact hstep c s c2 hadd (h (i, c) (alookup_mem l i c hc))
        · rw [if_neg hqi]
          exact h q hq

theorem allCust_impSales (P : Customer → Prop)
    (hstep : ∀ (c : Customer) (s : Sale) (c2 : Customer),
      Customer.add_sale c s = (c2, none) → P c → P c2) :
    ∀ (es : List Json) (l : Ledger) (cid : String),
      AllCust P l → AllCust P (impSales l cid es).1 := by
  intro es
  induction es with
  | nil => intro l cid h; exact h
  | cons e es ih =>
    intro l cid h
    cases he : impEntry e with
    | error err => simpa only [impSales, he] using h
    | ok sale =>
      cases hadd : Ledger.add_sale l cid sale with
      | mk l2 eo =>
        have h2 : AllCust P l2 := by
          have hx := allCust_addSale P hstep l cid sale h
          rw [hadd] at hx
          exact hx
        cases eo with
        | some err => simpa only [impSales, he, hadd] using h2
        | none =>
          simp only [impSales, he, hadd]
          exact ih l2 cid h2

theorem impCustPart_ok (l : Ledger) (r : Json) (l2 : Ledger) (i : String)
    (h : impCustPart l r = Except.ok (l2, i)) :
    ∃ (n : String) (di : DateInput) (cc : CustomerCode),
      Ledger.add_customer l n di cc (some (derivedId l n)) = (l2, Except.ok i) := by
  simp only [impCustPart, bind, Except.bind] at h
  cases h1 : getKey r "name" with
  | error e => simp [h1] at h
  | ok nameJ =>
  simp only [h1] at h
  cases h2 : getKey r "cust_type" with
  | error e => simp [h2] at h
  | ok ctJ =>
  simp only [h2] at h
  cases h3 : CustomerCode.ofJson ctJ with
  | none => simp [h3] at h
  | some cc =>
  simp only [h3] at h
  cases nameJ with
  | jstr name =>
    simp only [] at h
    cases h4 : getKey r "aquisition_date" with
    | error e => simp [h4] at h
    | ok adJ =>
    simp only [h4] at h
    cases h5 : Ledger.add_customer l name (jsonDateInput adJ) cc (some (derivedId l name)) with
    | mk l3 res =>
      rw [h5] at h
      cases res with
      | error e => simp at h
      | ok i2 =>
        simp only [] at h
        injection h with hpair
        obtain ⟨hl, hi⟩ := Prod.mk.injEq _ _ _ _ ▸ hpair
        subst hl
        subst hi
        exact ⟨name, jsonDateInput adJ, cc, h5⟩
  | jnull => simp at h
  | jbool b => simp at h
  | jint n => simp at h
  | jfloat m e => simp at h
  | jnan => simp at h
  | jinf b => simp at h
  | jarr xs => simp at h
  | jobj fs => simp at h

theorem allCust_impRecord (P : Customer → Prop)
    (hgen : ∀ (cc : CustomerCode) (gen : String → Datetime → Customer) (n : String)
      (a : Datetime), CUSTOMER_MAP cc = some gen → P (gen n a))
    (hstep : ∀ (c : Customer) (s : Sale) (c2 : Customer),
      Customer.add_sale c s = (c2, none) → P c → P c2)
    (l : Ledger) (r : Json) (h : AllCust P l) : AllCust P (impRecord l r).1 := by
  cases hc : impCustPart l r with
  | error e => simpa only [impRecord, hc] using h
  | ok li =>
    cases li with
    | mk l2 cid =>
      obtain ⟨n, di, cc, hadd⟩ := impCustPart_ok l r l2 cid hc
      have h2 : AllCust P l2 := by
        have hx := allCust_addCustomer P hgen l n di cc (some (derivedId l n)) h
        rw [hadd] at hx
        exact hx
      cases hs : salesList r with
      | error e => simpa only [impRecord, hc, hs] using h2
      | ok entries =>
        simp only [impRecord, hc, hs]
        exact allCust_impSales P hstep entries l2 cid h2

theorem allCust_impRecords (P : Customer → Prop)
    (hgen : ∀ (cc : CustomerCode) (gen : String → Datetime → Customer) (n : String)
      (a : Datetime), CUSTOMER_MAP cc = some gen → P (gen n a))
    (hstep : ∀ (c : Customer) (s : Sale) (c2 : Customer),
      Customer.add_sale c s = (c2, none) → P c → P c2) :
    ∀ (rs : List Json) (l : Ledger), AllCust P l → AllCust P (impRecords l rs).1 := by
  intro rs
  induction rs with
  | nil => intro l h; exact h
  | cons r rs ih =>
    intro l h
    cases hr : impRecord l r with
    | mk l2 eo =>
      have h2 : AllCust P l2 := by
        have hx := allCust_impRecord P hgen hstep l r h
        rw [hr] at hx
        exact hx
      cases eo with
      | some e => simpa only [impRecords, hr] using h2
      | none =>
        simp only [impRecords, hr]
        exact ih l2 h2

theorem allCust_importJson (P : Customer → Prop)
    (hgen : ∀ (cc : CustomerCode) (gen : String → Datetime → Customer) (n : String)
      (a : Datetime), CUSTOMER_MAP cc = some gen → P (gen n a))
    (hstep : ∀ (c : Customer) (s : Sale) (c2 : Customer),
      Customer.add_sale c s = (c2, none) → P c → P c2)
    (fs : List (String × String)) (l : Ledger) (f : String)
    (h : AllCust P l) : AllCust P (Ledger.import_json fs l f).1 := by
  cases hf : alookup fs f with
  | none => simpa only [Ledger.import_json, hf] using h
  | some text =>
    cases hj : json_loads text with
    | none => simpa only [Ledger.import_json, hf, hj] using h
    | some v =>
      cases v with
      | jarr records =>
        simp only [Ledger.import_json, hf, hj]
        exact allCust_impRecords P hgen hstep records l h
      | jnull => simpa only [Ledger.import_json, hf, hj] using h
      | jbool b => simpa only [Ledger.import_json, hf, hj] using h
      | jint n => simpa only [Ledger.import_json, hf, hj] using h
      | jfloat m e => simpa only [Ledger.import_json, hf, hj] using h
      | jnan => simpa only [Ledger.import_json, hf, hj] using h
      | jinf b => simpa only [Ledger.import_json, hf, hj] using h
      | jstr s => simpa only [Ledger.import_json, hf, hj] using h
      | jobj fields => simpa only [Ledger.import_json, hf, hj] using h

theorem allCust_reachable (P : Customer → Prop)
    (hgen : ∀ (cc : CustomerCode) (gen : String → Datetime → Customer) (n : String)
      (a : Datetime), CUSTOMER_MAP cc = some gen → P (gen n a))
    (hstep : ∀ (c : Customer) (s : Sale) (c2 : Customer),
      Customer.add_sale c s = (c2, none) → P c → P c2) :
    ∀ l : Ledger, Reachable l → AllCust P l := by
  intro l h
  induction h with
  | nil => intro p hp; cases hp
  | addCustomer l n di cc cid hr ih => exact allCust_addCustomer P hgen l n di cc cid ih
  | addSale l i s hr ih => exact allCust_addSale P hstep l i s ih
  | imported fs l f hr ih => exact allCust_importJson P hgen hstep fs l f ih

theorem gen_sales_nil :
    ∀ (cc : CustomerCode) (gen : String → Datetime → Customer) (n : String) (a : Datetime),
      CUSTOMER_MAP cc = some gen → (gen n a).sales = [] := by
  intro cc gen n a hm
  cases cc <;> simp [CUSTOMER_MAP] at hm <;> subst hm <;> rfl

theorem gen_cust_type :
    ∀ (cc : CustomerCode) (gen : String → Datetime → Customer) (n : String) (a : Datetime),
      CUSTOMER_MAP cc = some gen → (gen n a).cust_type = Sum.inr cc := by
  intro cc gen n a hm
  cases cc <;> simp [CUSTOMER_MAP] at hm <;> subst hm <;> rfl

theorem noCashSub_step :
    ∀ (c : Customer) (s : Sale) (c2 : Customer),
      Customer.add_sale c s = (c2, none) →
      (c.cls = CustClass.cash → ∀ x ∈ c.sales, x.cls ≠ SaleClass.subscription) →
      (c2.cls = CustClass.cash → ∀ x ∈ c2.sales, x.cls ≠ SaleClass.subscription) := by
  intro c s c2 hadd hc
  unfold Customer.add_sale at hadd
  by_cases hcs : c.cls = CustClass.cash ∧ s.cls = SaleClass.subscription
  · rw [if_pos hcs] at hadd
    simp at hadd
  · rw [if_neg hcs] at hadd
    obtain ⟨h1, -⟩ := Prod.mk.injEq _ _ _ _ ▸ hadd
    subst h1
    intro hcls x hx
    rcases List.mem_append.mp hx with hx | hx
    · exact hc hcls x hx
    · rw [List.mem_singleton.mp hx]
      intro hscls
      exact hcs ⟨hcls, hscls⟩

theorem goodTags_step :
    ∀ (c : Customer) (s : Sale) (c2 : Customer),
      Customer.add_sale c s = (c2, none) →
      (∃ cc : CustomerCode, c.cust_type = Sum.inr cc) →
      (∃ cc : CustomerCode, c2.cust_type = Sum.inr cc) := by
  intro c s c2 hadd hc
  unfold Customer.add_sale at hadd
  by_cases hcs : c.cls = CustClass.cash ∧ s.cls = SaleClass.subscription
  · rw [if_pos hcs] at hadd
    simp at hadd
  · rw [if_neg hcs] at hadd
    obtain ⟨h1, -⟩ := Prod.mk.injEq _ _ _ _ ▸ hadd
    subst h1
    exact hc

/-- Claim C3: for every customer-kind/sale-kind pair other than
(cash, subscription), `add_sale` succeeds and appends the sale; for a
cash customer and a subscription sale it always fails with
InvariantViolation leaving the sale sequence unchanged; consequently no
reachable customer of kind cash ever owns a subscription sale. -/
theorem claim_C3 :
    (∀ (c : Customer) (s : Sale),
      c.cls ≠ CustClass.base → s.cls ≠ SaleClass.base →
      ¬(c.cls = CustClass.cash ∧ s.cls = SaleClass.subscription) →
      Customer.add_sale c s = ({ c with sales := c.sales ++ [s] }, none)) ∧
    (∀ (c : Customer) (s : Sale),
      c.cls = CustClass.cash → s.cls = SaleClass.subscription →
      Customer.add_sale c s = (c, some Err.invariantViolation)) ∧
    (∀ l : Ledger, Reachable l → NoCashSub l) := by
  refine ⟨fun c s h1 h2 h3 => ?_, fun c s h1 h2 => ?_, fun l hr => ?_⟩
  · unfold Customer.add_sale
    rw [if_neg h3]
  · unfold Customer.add_sale
    rw [if_pos ⟨h1, h2⟩]
  · refine allCust_reachable _ ?_ noCashSub_step l hr
    intro cc gen n a hm _ x hx
    rw [gen_sales_nil cc gen n a hm] at hx
    cases hx

/-- Witness for C3: an account customer accepts a subscription sale; a
cash customer rejects it with InvariantViolation; the empty (reachable)
ledger satisfies the invariant. -/
theorem claim_C3_witness :
    Customer.add_sale (AccountCustomer.init "a" ⟨2019, 1, 1, 0, 0, 0⟩)
        ⟨SaleClass.subscription, SaleCode.SUBSCRIPTION, "i", ⟨2019, 2, 1, 0, 0, 0⟩, ⟨1, 0⟩, 1, none⟩ =
      ({ AccountCustomer.init "a" ⟨2019, 1, 1, 0, 0, 0⟩ with
          sales := [⟨SaleClass.subscription, SaleCode.SUBSCRIPTION, "i",
            ⟨2019, 2, 1, 0, 0, 0⟩, ⟨1, 0⟩, 1, none⟩] }, none) ∧
    Customer.add_sale (CashCustomer.init "c" ⟨2019, 1, 1, 0, 0, 0⟩)
        ⟨SaleClass.subscription, SaleCode.SUBSCRIPTION, "i", ⟨2019, 2, 1, 0, 0, 0⟩, ⟨1, 0⟩, 1, none⟩ =
      (CashCustomer.init "c" ⟨2019, 1, 1, 0, 0, 0⟩, some Err.invariantViolation) ∧
    NoCashSub [] :=
  ⟨claim_C3.1 _ _ (by decide) (by decide) (by decide),
   claim_C3.2.1 _ _ rfl rfl,
   claim_C3.2.2 [] Reachable.nil⟩

/-- Claim C10: every customer created through `add_customer` carries
exactly the customer kind that was passed in its `cust_type` tag; the
base record's initialization value for the tag is the sale-kind code
`SaleCode.UPGRADE`; and on every reachable ledger every customer's tag
is a `CustomerCode` — the base initialization value is never
observable. -/
theorem claim_C10 :
    (∀ (l : Ledger) (n : String) (di : DateInput) (cc : CustomerCode) (cid : Option String)
        (l2 : Ledger) (i : String),
      Ledger.add_customer l n di cc cid = (l2, Except.ok i) →
      ∃ c, alookup l2 i = some c ∧ c.cust_type = Sum.inr cc) ∧
    (∀ (n : String) (a : Datetime),
      (BaseCustomer.init n a).cust_type = Sum.inl SaleCode.UPGRADE) ∧
    (∀ l : Ledger, Reachable l → GoodTags l) := by
  refine ⟨?_, fun n a => rfl, fun l hr => ?_⟩
  · intro l n di cc cid l2 i h
    cases hd : to_datetime di with
    | error e => simp [Ledger.add_customer, hd] at h
    | ok ad =>
      simp only [Ledger.add_customer, hd] at h
      by_cases hl : (alookup l (effectiveId cid n)).isSome
      · rw [if_pos hl] at h
        simp at h
      · rw [if_neg hl] at h
        cases hm : CUSTOMER_MAP cc with
        | none => rw [hm] at h; simp at h
        | some gen =>
          rw [hm] at h
          obtain ⟨h1, h2⟩ := Prod.mk.injEq _ _ _ _ ▸ h
          injection h2 with h2
          subst h1
          subst h2
          refine ⟨gen n ad, ?_, gen_cust_type cc gen n ad hm⟩
          exact alookup_append_self l _ _ (Option.not_isSome_iff_eq_none.mp hl)
  · refine allCust_reachable _ ?_ goodTags_step l hr
    intro cc gen n a hm
    exact ⟨cc, gen_cust_type cc gen n a hm⟩

/-- Witness for C10: a concrete successful add carries the cash code;
the empty ledger is reachable and well-tagged. -/
theorem claim_C10_witness :
    (∃ c, alookup [("A", CashCustomer.init "A" ⟨2019, 1, 1, 0, 0, 0⟩)] "A" = some c ∧
      c.cust_type = Sum.inr CustomerCode.CASH) ∧ GoodTags [] :=
  ⟨claim_C10.1 [] "A" (DateInput.dt ⟨2019, 1, 1, 0, 0, 0⟩) CustomerCode.CASH none
      [("A", CashCustomer.init "A" ⟨2019, 1, 1, 0, 0, 0⟩)] "A" rfl,
   claim_C10.2.2 [] Reachable.nil⟩

theorem impSales_append (cid : String) :
    ∀ (xs : List Json) (l l2 : Ledger) (ys : List Json),
      impSales l cid xs = (l2, none) →
      impSales l cid (xs ++ ys) = impSales l2 cid ys := by
  intro xs
  induction xs with
  | nil =>
    intro l l2 ys h
    obtain ⟨h1, -⟩ := Prod.mk.injEq _ _ _ _ ▸ h
    rw [← h1]
    rfl
  | cons x xs ih =>
    intro l l2 ys h
    cases he : impEntry x with
    | error err => simp only [impSales, he] at h; cases h
    | ok sale =>
      simp only [impSales, he] at h
      cases hadd : Ledger.add_sale l cid sale with
      | mk l3 eo =>
        simp only [hadd] at h
        cases eo with
        | some err => simp at h
        | none =>
          simp only [List.cons_append, impSales, he, hadd]
          exact ih l3 l2 ys h

theorem add_sale_keys (l : Ledger) (i : String) (s : Sale) :
    ((Ledger.add_sale l i s).1).map Prod.fst = l.map Prod.fst := by
  cases hc : alookup l i with
  | none => simp [Ledger.add_sale, hc]
  | some c =>
    cases hadd : Customer.add_sale c s with
    | mk c2 eo =>
      cases eo with
      | some e => simp [Ledger.add_sale, hc, hadd]
      | none =>
        simp only [Ledger.add_sale, hc, hadd, List.map_map]
        congr 1
        funext p
        by_cases hp : p.1 = i <;> simp [hp]

theorem impSales_keys (cid : String) :
    ∀ (es : List Json) (l : Ledger),
      ((impSales l cid es).1).map Prod.fst = l.map Prod.fst := by
  intro es
  induction es with
  | nil => intro l; rfl
  | cons e es ih =>
    intro l
    cases he : impEntry e with
    | error err => simp [impSales, he]
    | ok sale =>
      cases hadd : Ledger.add_sale l cid sale with
      | mk l2 eo =>
        have hk : l2.map Prod.fst = l.map Prod.fst := by
          have hx := add_sale_keys l cid sale
          rw [hadd] at hx
          exact hx
        cases eo with
        | some err => simp only [impSales, he, hadd]; exact hk
        | none =>
          simp only [impSales, he, hadd]
          rw [ih l2, hk]

theorem impEntry_bad_core (fs : List (String × Json)) (v : Json) (stv : String)
    (sc : SaleCode) (cls : SaleClass)
    (hst : Json.getField (Json.jobj fs) "sale_type" = some (Json.jstr stv))
    (hexp : Json.getField (Json.jobj fs) "expiration" = some v)
    (hsc : SaleCode.ofJson (Json.jstr stv) = some sc)
    (hsm : SALE_MAP sc = some cls)
    (hctor : ∀ (item dateJ : Json) (price : Dec) (qty : Int),
      saleCtor cls item dateJ price qty (some v) = Except.error Err.typeMismatch) :
    ∃ e, impEntry (Json.jobj fs) = Except.error e := by
  have hst2 : getKey (Json.jobj fs) "sale_type" = Except.ok (Json.jstr stv) := by
    simp [getKey, hst]
  cases hp : getKey (Json.jobj fs) "price" with
  | error e => exact ⟨e, by simp only [impEntry, bind, Except.bind, hp]⟩
  | ok pj =>
  cases hpd : jsonToDec pj with
  | error e => exact ⟨e, by simp only [impEntry, bind, Except.bind, hp, hpd]⟩
  | ok price =>
  cases hq : Json.getField (Json.jobj fs) "quantity" with
  | none =>
    cases hi : getKey (Json.jobj fs) "item" with
    | error e =>
      exact ⟨e, by simp only [impEntry, bind, Except.bind, hp, hpd, hst2, hsc, hsm, hq, hexp, hi]⟩
    | ok item =>
    cases hdt : getKey (Json.jobj fs) "date" with
    | error e =>
      exact ⟨e, by
        simp only [impEntry, bind, Except.bind, hp, hpd, hst2, hsc, hsm, hq, hexp, hi, hdt]⟩
    | ok dateJ =>
      exact ⟨Err.typeMismatch, by
        simp only [impEntry, bind, Except.bind, hp, hpd, hst2, hsc, hsm, hq, hexp, hi, hdt, hctor]⟩
  | some q =>
    cases hqd : jsonQty q with
    | error e =>
      exact ⟨e, by simp only [impEntry, bind, Except.bind, hp, hpd, hst2, hsc, hsm, hq, hqd]⟩
    | ok qty =>
    cases hi : getKey (Json.jobj fs) "item" with
    | error e =>
      exact ⟨e, by
        simp only [impEntry, bind, Except.bind, hp, hpd, hst2, hsc, hsm, hq, hqd, hexp, hi]⟩
    | ok item =>
    cases hdt : getKey (Json.jobj fs) "date" with
    | error e =>
      exact ⟨e, by
        simp only [impEntry, bind, Except.bind, hp, hpd, hst2, hsc, hsm, hq, hqd, hexp, hi, hdt]⟩
    | ok dateJ =>
      exact ⟨Err.typeMismatch, by
        simp only [impEntry, bind, Except.bind, hp, hpd, hst2, hsc, hsm, hq, hqd, hexp, hi, hdt,
          hctor]⟩

theorem impEntry_bad (bad : Json) (v : Json)
    (hst : Json.getField bad "sale_type" = some (Json.jstr "S") ∨
           Json.getField bad "sale_type" = some (Json.jstr "U"))
    (hexp : Json.getField bad "expiration" = some v) :
    ∃ e, impEntry bad = Except.error e := by
  cases bad with
  | jobj fs =>
    rcases hst with hst | hst
    · exact impEntry_bad_core fs v "S" SaleCode.STANDALONE SaleClass.product hst hexp rfl rfl
        (fun item dateJ price qty => rfl)
    · exact impEntry_bad_core fs v "U" SaleCode.UPGRADE SaleClass.upgrade hst hexp rfl rfl
        (fun item dateJ price qty => rfl)
  | jnull => simp [Json.getField] at hexp
  | jbool b => simp [Json.getField] at hexp
  | jint n => simp [Json.getField] at hexp
  | jfloat m e => simp [Json.getField] at hexp
  | jnan => simp [Json.getField] at hexp
  | jinf b => simp [Json.getField] at hexp
  | jstr s => simp [Json.getField] at hexp
  | jarr xs => simp [Json.getField] at hexp

/-- Claim C9: if a record's sales list contains an entry whose sale_type
code is standalone ("S") or upgrade ("U") and which also carries an
`expiration` field, then — once the earlier entries have been processed
successfully — importing the record fails at that entry (those sale
constructors reject the expiration keyword), and the ledger keeps the
customer created from the record together with the sales added from the
earlier entries. -/
theorem claim_C9 :
    ∀ (l : Ledger) (record : Json) (l2 : Ledger) (cid : String) (pre rest : List Json)
      (bad : Json) (l3 : Ledger) (v : Json),
      impCustPart l record = Except.ok (l2, cid) →
      salesList record = Except.ok (pre ++ bad :: rest) →
      (Json.getField bad "sale_type" = some (Json.jstr "S") ∨
        Json.getField bad "sale_type" = some (Json.jstr "U")) →
      Json.getField bad "expiration" = some v →
      impSales l2 cid pre = (l3, none) →
      ∃ e, impRecord l record = (l3, some e) ∧ (alookup l3 cid).isSome = true := by
  intro l record l2 cid pre rest bad l3 v hcust hsales hst hexp hpre
  obtain ⟨e, he⟩ := impEntry_bad bad v hst hexp
  refine ⟨e, ?_, ?_⟩
  · simp only [impRecord, hcust, hsales]
    rw [impSales_append cid pre l2 l3 (bad :: rest) hpre]
    simp only [impSales, he]
  · obtain ⟨n, di, cc, hadd⟩ := impCustPart_ok l record l2 cid hcust
    obtain ⟨-, hsome⟩ := add_customer_ok l n di cc (some (derivedId l n)) l2 cid hadd
    rw [alookup_isSome_iff] at hsome ⊢
    have hk : l3.map Prod.fst = l2.map Prod.fst := by
      have hx := impSales_keys cid pre l2
      rw [hpre] at hx
      exact hx
    rw [hk]
    exact hsome

/-- Witness for C9 at the concrete record `recC9`. -/
theorem claim_C9_witness :
    ∃ e, impRecord [] recC9 = (ledgerC9, some e) ∧ (alookup ledgerC9 "B").isSome = true :=
  claim_C9 [] recC9 [("B", CashCustomer.init "B" ⟨2018, 1, 1, 0, 0, 0⟩)] "B"
    [goodC9] [] badC9 ledgerC9 (Json.jstr "2020-01-01") rfl rfl (Or.inl rfl) rfl rfl
